import Mathlib

/-!
Verification of the `carli` CLI toolkit (error value, native-error
conversion, context combinator, test I/O context, stream abstraction).
Definitions are shallow embeddings of the Rust source in `src/`.
-/

/-! ## Error value (src/error.rs) -/

/-- The `Error` struct from src/error.rs: optional context stack, optional
message, and an exit status (`i32`, modelled as `Int`). -/
structure Error where
  context : Option (List String)
  message : Option String
  status : Int
deriving DecidableEq, Repr

/-- `Error::new(status)` — context and message absent. -/
def Error.new (status : Int) : Error :=
  { context := none, message := none, status := status }

/-- `Default for Error` — status 1, nothing else. -/
def Error.mkDefault : Error :=
  { context := none, message := none, status := 1 }

/-- `Error::context(message)`: if `context` is `None`, replace it by an empty
vector; then push the message onto the (now present) vector. The builder
returns the updated value — the operation has no failure channel. -/
def Error.addContext (e : Error) (message : String) : Error :=
  let withVec := if e.context.isNone then { e with context := some [] } else e
  { withVec with context := withVec.context.map (fun c => c ++ [message]) }

/-- `Error::message(message)`: sets (replacing any previous) root message. -/
def Error.setMessage (e : Error) (message : String) : Error :=
  { e with message := some message }

/-- `" ".repeat(n)` — a run of `n` spaces. -/
def spaces (n : Nat) : String :=
  String.mk (List.replicate n ' ')

/-- The context loop of `impl fmt::Display for Error`: starting at the given
depth, print each entry at `depth*2` leading spaces followed by a newline,
incrementing depth after each line; returns the text and the final depth. -/
def renderContext : Nat → List String → String × Nat
  | depth, [] => ("", depth)
  | depth, m :: rest =>
      let (s, d) := renderContext (depth + 1) rest
      (spaces (depth * 2) ++ m ++ "\n" ++ s, d)

/-- `impl fmt::Display for Error`: iterate the context in reverse insertion
order via the loop above (depth starting at 0), then, if a message is
present, print it at the final depth with the same indentation rule. -/
def Error.display (e : Error) : String :=
  let (body, depth) :=
    match e.context with
    | some context => renderContext 0 context.reverse
    | none => ("", 0)
  match e.message with
  | some m => body ++ spaces (depth * 2) ++ m ++ "\n"
  | none => body

/-- `Error::exit`: if context or message is present, `eprintln!("{}", self)`
writes the display form plus one trailing newline to the error stream; then
the process exits with `status`. Modelled as the pair (bytes written to the
error stream, exit status). -/
def Error.exit (e : Error) : String × Int :=
  (if e.context.isSome || e.message.isSome then e.display ++ "\n" else "",
   e.status)

/-- `Inspect::get_context` for `Error`: maps each stored message to its
`&str` view, preserving the stored order. -/
def Error.get_context (e : Error) : Option (List String) :=
  e.context.map (fun context => context.map (fun message => message))

/-- `Inspect::get_message` for `Error`. -/
def Error.get_message (e : Error) : Option String :=
  e.message

/-- `Inspect::get_status` for `Error`. -/
def Error.get_status (e : Error) : Int :=
  e.status

/-! ## Native-error conversion (src/error.rs, `impl<T: Error> From<T>`) -/

/-- One node of a native error chain: its `Display` text, and, when the node
is a `std::io::Error` whose `raw_os_error()` is `Some(code)`, that code. -/
structure NativeNode where
  text : String
  rawOsError : Option Int
deriving DecidableEq, Repr

/-- The traversal loop of `From<T> for Error`: while a source exists, push
the current node's display text onto the context (creating the vector on
first use) and advance; at the terminal node capture the message and, for an
OS error, the status. -/
def fromChainGo (ctx : Option (List String)) : NativeNode → List NativeNode → Error
  | cur, [] =>
      { context := ctx
        message := some cur.text
        status := cur.rawOsError.getD 1 }
  | cur, next :: rest =>
      fromChainGo (some (ctx.getD [] ++ [cur.text])) next rest

/-- `Error::from(error)` for a native error whose cause chain is
`cur :: rest` (head = the given, outermost error; last = terminal cause). -/
def Error.fromNative (cur : NativeNode) (rest : List NativeNode) : Error :=
  fromChainGo none cur rest

/-! ## Context combinator (src/error.rs, `impl<T> Context for Result<T>`) -/

/-- `Context::context` on `Result<T>`: `self.map_err(|e| e.context(message()))`.
The closure is effect-instrumented: it threads a state `σ` so that the
embedding records whether (and how often) the closure runs. `map_err` leaves
an `Ok` untouched without invoking the closure; on `Err` it invokes the
closure once and appends its output as context. -/
def resultContext {T σ : Type} (r : Except Error T) (f : σ → String × σ)
    (s : σ) : Except Error T × σ :=
  match r with
  | .ok v => (.ok v, s)
  | .error e =>
      let (msg, s') := f s
      (.error (e.addContext msg), s')

/-! ## Test execution context (src/io.rs, `Test = Base<Vec<u8>, Cursor<Vec<u8>>, Vec<u8>>`) -/

/-- `std::io::Cursor<Vec<u8>>`: an owned byte buffer with a read position. -/
structure Cursor where
  data : List Nat
  pos : Nat
deriving DecidableEq, Repr

/-- The `Test` context: error output buffer (`Vec<u8>`), input cursor
(`Cursor<Vec<u8>>`), and global output buffer (`Vec<u8>`). -/
structure Test where
  error : List Nat
  input : Cursor
  output : List Nat
deriving DecidableEq, Repr

/-- `Default for Test` — three empty buffers, input cursor at position 0. -/
def Test.mkDefault : Test :=
  { error := [], input := { data := [], pos := 0 }, output := [] }

/-- `Test::set_input(contents)` as written in src/io.rs: it locks
`self.error` (not `self.input`) and assigns `Vec::from(contents)` to the
guarded buffer, so the ERROR buffer receives the bytes. -/
def Test.set_input (t : Test) (contents : List Nat) : Test :=
  { t with error := contents }

/-- `Test::to_error_vec`: a copy of the error output buffer. -/
def Test.to_error_vec (t : Test) : List Nat :=
  t.error

/-- `Test::to_output_vec`: a copy of the global output buffer. -/
def Test.to_output_vec (t : Test) : List Nat :=
  t.output

/-- Reading the input stream to the end (`read_to_end` on the cursor):
yields the bytes from the current position onward and leaves the position at
the end of the buffer. -/
def Test.readInputToEnd (t : Test) : List Nat × Test :=
  (t.input.data.drop t.input.pos,
   { t with input := { t.input with pos := t.input.data.length } })

/-! ## Stream abstraction

The spec's §3/§4.4 `Stream` tagged union is referenced by `src/command.rs`
and the `lib.rs` prelude but its definition is not under `src/`, so it is
modelled from the spec below. -/

/-- Modelled from the spec: the `Stream` tagged union of §3 — four backing
kinds: memory (owned, seekable, growable byte buffer with a position),
error-console, input-console (with pending bytes to be read), and
output-console (the missing definition is the `Stream` enum of `src/io.rs`
referenced by `command.rs` and the `lib.rs` prelude). -/
inductive IoStream
  | memory (data : List Nat) (pos : Nat)
  | errorConsole (written : List Nat)
  | inputConsole (pending : List Nat)
  | outputConsole (written : List Nat)
deriving DecidableEq, Repr

/-- Modelled from the spec: `read` dispatches on the active kind per §3's
capability table — memory and the input console support reading; invoking
`read` on the error or output console kinds is a fatal contract violation,
modelled as `none` (a panic outcome distinct from any returned value). -/
def IoStream.read : IoStream → Option (List Nat × IoStream)
  | .memory data pos =>
      some (data.drop pos, .memory data data.length)
  | .inputConsole pending =>
      some (pending, .inputConsole [])
  | .errorConsole _ => none
  | .outputConsole _ => none

/-- Modelled from the spec: `write` appends bytes for the memory kind (at
the current position; the buffer is growable) and the two console output
kinds; invoking `write` on the input console kind is a fatal contract
violation, modelled as `none`. -/
def IoStream.write : IoStream → List Nat → Option IoStream
  | .memory data pos, bytes =>
      some (.memory (data.take pos ++ bytes ++ data.drop (pos + bytes.length))
        (pos + bytes.length))
  | .errorConsole written, bytes => some (.errorConsole (written ++ bytes))
  | .outputConsole written, bytes => some (.outputConsole (written ++ bytes))
  | .inputConsole _, _ => none

/-- Modelled from the spec: `seek` repositions a memory-backed stream; every
console kind rejects seeking as a fatal contract violation (`none`). -/
def IoStream.seek : IoStream → Nat → Option IoStream
  | .memory data _, target => some (.memory data target)
  | .errorConsole _, _ => none
  | .inputConsole _, _ => none
  | .outputConsole _, _ => none

/-! ## Helper lemmas -/

/-- String append is concatenation of the underlying character lists. -/
theorem strAppend (a b : List Char) :
    String.mk a ++ String.mk b = String.mk (a ++ b) :=
  rfl

/-- String append is associative. -/
theorem strAppendAssoc (a b c : String) : a ++ b ++ c = a ++ (b ++ c) := by
  cases a
  cases b
  cases c
  rw [strAppend, strAppend, strAppend, strAppend, List.append_assoc]

/-- Closed form of the `fromChainGo` traversal loop: the message comes from
the terminal node, the status from the terminal node's OS code (default 1),
and the context collects every non-terminal node's text after the incoming
accumulator. -/
theorem fromChainGo_spec (rest : List NativeNode) (cur : NativeNode)
    (ctx : Option (List String)) :
    fromChainGo ctx cur rest =
      { context :=
          if rest = [] then ctx
          else some (ctx.getD [] ++ (List.dropLast (cur :: rest)).map NativeNode.text)
        message := some (rest.getLastD cur).text
        status := (rest.getLastD cur).rawOsError.getD 1 } := by
  induction rest generalizing ctx cur with
  | nil => simp [fromChainGo]
  | cons next rs ih =>
      rw [fromChainGo, ih, List.getLastD_cons]
      cases rs with
      | nil => simp
      | cons a as => simp [List.dropLast, List.append_assoc]

/-- Concatenation of a list of printed lines. -/
def concatLines : List String → String
  | [] => ""
  | l :: ls => l ++ concatLines ls

/-- The lines the spec prescribes for the display form: the context entries
in reverse insertion order, the i-th printed line carrying `2*i` leading
spaces and a terminating newline, followed, when a message is present, by
the message at the final depth under the same indentation rule. -/
def displaySpecLines (e : Error) : List String :=
  let rev := (e.context.getD []).reverse
  (List.zipWith (fun i m => spaces (2 * i) ++ m ++ "\n")
      (List.range rev.length) rev) ++
    match e.message with
    | some m => [spaces (2 * rev.length) ++ m ++ "\n"]
    | none => []

/-- The display form exactly as the spec words it (see `displaySpecLines`). -/
def displaySpec (e : Error) : String :=
  concatLines (displaySpecLines e)

/-- The context loop of the `Display` implementation produces precisely the
indented lines the spec prescribes, with the depth offset threaded through,
and ends at depth `d + msgs.length`. -/
theorem renderContext_eq (msgs : List String) (d : Nat) :
    renderContext d msgs =
      (concatLines (List.zipWith (fun i m => spaces (2 * (d + i)) ++ m ++ "\n")
          (List.range msgs.length) msgs),
       d + msgs.length) := by
  induction msgs generalizing d with
  | nil => simp [renderContext, concatLines]
  | cons m rest ih =>
      rw [renderContext, ih]
      refine Prod.ext ?_ (by simp; omega)
      simp only [List.length_cons, List.range_succ_eq_map, List.zipWith_cons_cons,
        List.zipWith_map_left, concatLines]
      have harg : ∀ i me, spaces (2 * (d + (i + 1))) ++ me ++ "\n" =
          spaces (2 * (d + 1 + i)) ++ me ++ "\n" := by
        intro i me
        have : d + (i + 1) = d + 1 + i := by omega
        rw [this]
      simp only [Nat.succ_eq_add_one, harg]
      have hd : d * 2 = 2 * (d + 0) := by omega
      rw [hd]

/-- The empty string is a left identity for append. -/
theorem strEmptyAppend (a : String) : "" ++ a = a := by
  cases a
  rfl

/-- The empty string is a right identity for append. -/
theorem strAppendEmpty (a : String) : a ++ "" = a := by
  cases a
  rw [show ("" : String) = String.mk [] from rfl, strAppend, List.append_nil]

/-- `concatLines` distributes over list append. -/
theorem concatLines_append (xs ys : List String) :
    concatLines (xs ++ ys) = concatLines xs ++ concatLines ys := by
  induction xs with
  | nil => rw [List.nil_append, concatLines, strEmptyAppend]
  | cons l ls ih => rw [List.cons_append, concatLines, concatLines, ih, strAppendAssoc]

/-- The source `Display` implementation agrees with the spec's line-by-line
description of the rendering. -/
theorem display_eq_displaySpec (e : Error) : e.display = displaySpec e := by
  obtain ⟨ctx, msg, st⟩ := e
  · cases ctx with
    | none =>
        cases msg with
        | none => simp [Error.display, displaySpec, displaySpecLines, concatLines]
        | some m =>
            simp [Error.display, displaySpec, displaySpecLines, concatLines,
              strEmptyAppend, strAppendEmpty]
    | some c =>
        cases msg with
        | none =>
            simp [Error.display, displaySpec, displaySpecLines, renderContext_eq,
              concatLines_append, concatLines, strAppendEmpty]
        | some m =>
            simp [Error.display, displaySpec, displaySpecLines, renderContext_eq,
              concatLines_append, concatLines, strAppendEmpty, strAppendAssoc,
              Nat.mul_comm]

/-- C1: for every error value, the rendered display consists of the context
entries in reverse insertion order, the i-th printed line indented by `2*i`
leading spaces (depth starting at 0 and incremented after each line),
followed, if a message is present, by the message at the final depth under
the same indentation rule, each line ending in a newline (`displaySpec`);
and when both message and context are absent the rendering is the empty
string and `exit` writes nothing to the error stream while carrying the
status through. -/
theorem display_follows_spec (e : Error) :
    e.display = displaySpec e ∧
    (e.context = none → e.message = none →
      e.display = "" ∧ Error.exit e = ("", e.status)) := by
  refine ⟨display_eq_displaySpec e, fun hc hm => ?_⟩
  constructor
  · simp [Error.display, hc, hm]
  · simp [Error.exit, Error.display, hc, hm]

/-- Witness for C1 at the bare status-only error `Error.new 3`. -/
theorem display_follows_spec_witness :
    (Error.new 3).display = displaySpec (Error.new 3) ∧
    ((Error.new 3).display = "" ∧ Error.exit (Error.new 3) = ("", 3)) :=
  ⟨(display_follows_spec (Error.new 3)).1,
   (display_follows_spec (Error.new 3)).2 rfl rfl⟩

/-- C2: converting a native error whose cause chain is `cur :: rest` sets
the message to the display text of the terminal (sourceless) cause and the
context to the display texts of every non-terminal node in traversal order
(outermost-given node first); a chain of length one (`rest = []`) yields no
context. -/
theorem fromNative_context_and_message (cur : NativeNode)
    (rest : List NativeNode) :
    (Error.fromNative cur rest).message = some ((rest.getLastD cur).text) ∧
    (Error.fromNative cur rest).context =
      if rest = [] then none
      else some ((List.dropLast (cur :: rest)).map NativeNode.text) := by
  rw [Error.fromNative, fromChainGo_spec]
  exact ⟨rfl, by cases rest <;> simp⟩

/-- C3: the status of a converted native error is the terminal node's raw
OS error code when it is an OS-level I/O error exposing one, and 1 for any
other terminal native error. -/
theorem fromNative_status (cur : NativeNode) (rest : List NativeNode) :
    (Error.fromNative cur rest).status =
      match (rest.getLastD cur).rawOsError with
      | some code => code
      | none => 1 := by
  rw [Error.fromNative, fromChainGo_spec]
  cases (rest.getLastD cur).rawOsError <;> rfl

/-- C5: the `context` combinator on results, with the closure instrumented
to thread a state, leaves a success untouched and returns the incoming
state unchanged (the closure is never invoked on the success path), and on
a failure returns the state after exactly one invocation of the closure,
appending the closure's output as context to the carried error. -/
theorem resultContext_lazy {T σ : Type} (f : σ → String × σ) (s : σ)
    (v : T) (e : Error) :
    resultContext (.ok v) f s = (.ok v, s) ∧
    resultContext (T := T) (.error e) f s =
      (.error (e.addContext (f s).1), (f s).2) := by
  constructor
  · rfl
  · rw [resultContext]

/-- C6: `Error::context` never fails and preserves the status, the message,
and every existing context entry in order, appending the new entry at the
end (an absent context is treated as the empty sequence). -/
theorem addContext_appends (e : Error) (s : String) :
    (e.addContext s).status = e.status ∧
    (e.addContext s).message = e.message ∧
    (e.addContext s).context = some (e.context.getD [] ++ [s]) := by
  cases h : e.context <;>
    simp [Error.addContext, h]

/-- Error values reachable through the public operations: `new`, default
construction, `message`, `context`, and conversion from a native error. -/
inductive ErrReachable : Error → Prop
  | new (s : Int) : ErrReachable (Error.new s)
  | mkDefault : ErrReachable Error.mkDefault
  | setMessage (e : Error) (m : String) :
      ErrReachable e → ErrReachable (e.setMessage m)
  | addContext (e : Error) (m : String) :
      ErrReachable e → ErrReachable (e.addContext m)
  | fromNative (cur : NativeNode) (rest : List NativeNode) :
      ErrReachable (Error.fromNative cur rest)

/-- C7: every error value reachable through the public operations has a
context that is either absent or non-empty; no operation produces a
present-but-empty context collection. -/
theorem reachable_context_nonempty (e : Error) (h : ErrReachable e) :
    e.context ≠ some [] := by
  induction h with
  | new s => simp [Error.new]
  | mkDefault => simp [Error.mkDefault]
  | setMessage e m _ ih => simpa [Error.setMessage] using ih
  | addContext e m _ _ =>
      cases hc : e.context <;> simp [Error.addContext, hc]
  | fromNative cur rest =>
      rw [Error.fromNative, fromChainGo_spec]
      cases rest <;> simp [List.dropLast]

/-- Witness for C7 at `Error::new(1).context("a")`. -/
theorem reachable_context_nonempty_witness :
    ErrReachable ((Error.new 1).addContext "a") ∧
    ((Error.new 1).addContext "a").context ≠ some [] :=
  ⟨.addContext _ _ (.new 1),
   reachable_context_nonempty _ (.addContext _ _ (.new 1))⟩

/-- Membership in the zipped line list: every produced line is
newline-terminated. -/
theorem zipWith_line_newline (g : Nat → String) :
    ∀ (idx : List Nat) (ms : List String) l,
      l ∈ List.zipWith (fun i m => g i ++ m ++ "\n") idx ms → ∃ s, l = s ++ "\n"
  | [], _, l, h => by simp at h
  | _ :: _, [], l, h => by simp at h
  | i :: is, m :: ms, l, h => by
      rw [List.zipWith_cons_cons] at h
      rcases List.mem_cons.mp h with rfl | h2
      · exact ⟨_, rfl⟩
      · exact zipWith_line_newline g is ms l h2

/-- Every line of `displaySpecLines` is newline-terminated. -/
theorem displaySpecLines_newline (e : Error) :
    ∀ l ∈ displaySpecLines e, ∃ s, l = s ++ "\n" := by
  intro l hl
  rw [displaySpecLines, List.mem_append] at hl
  cases hl with
  | inl hz => exact zipWith_line_newline _ _ _ l hz
  | inr hm =>
      cases hmsg : e.message <;> rw [hmsg] at hm <;> simp at hm
      exact ⟨_, hm⟩

/-- A non-empty concatenation of newline-terminated lines is empty or
newline-terminated. -/
theorem concatLines_newline (lines : List String)
    (h : ∀ l ∈ lines, ∃ s, l = s ++ "\n") :
    concatLines lines = "" ∨ ∃ s, concatLines lines = s ++ "\n" := by
  induction lines with
  | nil => exact Or.inl rfl
  | cons l ls ih =>
      obtain ⟨s, hs⟩ := h l (List.mem_cons_self l ls)
      rcases ih (fun x hx => h x (List.mem_cons_of_mem l hx)) with h0 | ⟨t, ht⟩
      · exact Or.inr ⟨s, by rw [concatLines, h0, strAppendEmpty, hs]⟩
      · exact Or.inr ⟨l ++ t, by rw [concatLines, ht, ← strAppendAssoc]⟩

/-- C9: when message or context is present, `exit` writes to the error
stream the display rendering followed by one additional newline, and
terminates with the carried status; moreover the rendering itself is empty
or newline-terminated, so the written output always ends with an empty
(blank) final line. -/
theorem exit_appends_newline (e : Error)
    (h : e.context.isSome = true ∨ e.message.isSome = true) :
    (Error.exit e).1 = e.display ++ "\n" ∧
    (Error.exit e).2 = e.status ∧
    (e.display = "" ∨ ∃ s, e.display = s ++ "\n") := by
  refine ⟨?_, rfl, ?_⟩
  · cases h with
    | inl h1 => simp [Error.exit, h1]
    | inr h1 => simp [Error.exit, h1]
  · rw [display_eq_displaySpec e, displaySpec]
    exact concatLines_newline _ (displaySpecLines_newline e)

/-- Witness for C9 at `Error::new(2).message("x")`. -/
theorem exit_appends_newline_witness :
    (((Error.new 2).setMessage "x").context.isSome = true ∨
      ((Error.new 2).setMessage "x").message.isSome = true) ∧
    ((Error.exit ((Error.new 2).setMessage "x")).1 =
        ((Error.new 2).setMessage "x").display ++ "\n" ∧
      (Error.exit ((Error.new 2).setMessage "x")).2 =
        ((Error.new 2).setMessage "x").status ∧
      (((Error.new 2).setMessage "x").display = "" ∨
        ∃ s, ((Error.new 2).setMessage "x").display = s ++ "\n")) :=
  ⟨Or.inr rfl, exit_appends_newline _ (Or.inr rfl)⟩

/-- Appending a batch of context entries via repeated `Error::context`. -/
def addAll (e : Error) (ms : List String) : Error :=
  ms.foldl Error.addContext e

/-- Closed form for a batch of `Error::context` calls: the entries land at
the end of the stored context in the order they were appended, and message
and status are untouched. -/
theorem addAll_fields (ms : List String) (e : Error) :
    (addAll e ms).context =
      (if ms = [] then e.context else some (e.context.getD [] ++ ms)) ∧
    (addAll e ms).message = e.message ∧ (addAll e ms).status = e.status := by
  induction ms generalizing e with
  | nil => simp [addAll]
  | cons m rest ih =>
      have h1 : addAll e (m :: rest) = addAll (e.addContext m) rest := rfl
      rw [h1]
      obtain ⟨hc, hm, hs⟩ := ih (e.addContext m)
      refine ⟨?_, ?_, ?_⟩
      · rw [hc]
        cases h2 : e.context with
        | none => cases rest <;> simp [Error.addContext, h2]
        | some c => cases rest <;> simp [Error.addContext, h2]
      · rw [hm]
        cases h2 : e.context <;> simp [Error.addContext, h2]
      · rw [hs]
        cases h2 : e.context <;> simp [Error.addContext, h2]

/-- The inspection operations are pure projections of the stored fields. -/
theorem inspect_projections (e : Error) :
    e.get_context = e.context ∧ e.get_message = e.message ∧
    e.get_status = e.status := by
  refine ⟨?_, rfl, rfl⟩
  cases h : e.context <;> simp [Error.get_context, h]

/-- C10: `get_context` returns the context entries in insertion (append)
order — after appending the batch `ms`, the view lists the prior entries
followed by `ms` in the order added, not the reversed order the display
uses — and the inspection operations are pure projections of the stored
context, message, and status, modifying none of them. -/
theorem get_context_insertion_order (e : Error) (ms : List String)
    (h : e.context.isSome = true ∨ ms ≠ []) :
    (addAll e ms).get_context = some (e.context.getD [] ++ ms) ∧
    (addAll e ms).get_context = (addAll e ms).context ∧
    (addAll e ms).get_message = (addAll e ms).message ∧
    (addAll e ms).get_status = (addAll e ms).status := by
  obtain ⟨hproj, hm, hs⟩ := inspect_projections (addAll e ms)
  refine ⟨?_, hproj, hm, hs⟩
  rw [hproj, (addAll_fields ms e).1]
  cases hms : ms with
  | nil =>
      cases h with
      | inl h1 =>
          obtain ⟨c, hc⟩ := Option.isSome_iff_exists.mp h1
          simp [hc]
      | inr h1 => exact absurd hms h1
  | cons m rest => simp

/-- Witness for C10 at `Error::new(1)` with the batch `["a", "b"]`. -/
theorem get_context_insertion_order_witness :
    ((Error.new 1).context.isSome = true ∨ (["a", "b"] : List String) ≠ []) ∧
    ((addAll (Error.new 1) ["a", "b"]).get_context =
        some ((Error.new 1).context.getD [] ++ ["a", "b"]) ∧
      (addAll (Error.new 1) ["a", "b"]).get_context =
        (addAll (Error.new 1) ["a", "b"]).context ∧
      (addAll (Error.new 1) ["a", "b"]).get_message =
        (addAll (Error.new 1) ["a", "b"]).message ∧
      (addAll (Error.new 1) ["a", "b"]).get_status =
        (addAll (Error.new 1) ["a", "b"]).status) :=
  ⟨Or.inr (by simp),
   get_context_insertion_order (Error.new 1) ["a", "b"] (Or.inr (by simp))⟩

/-- The bytes of `b"example"`, the input seed used by the set_input doc
example in src/io.rs. -/
def exampleBytes : List Nat := [101, 120, 97, 109, 112, 108, 101]

/-- C4 (code bug in `Test::set_input`): on a fresh test context, seeding
with `b"example"` stores the bytes in the ERROR buffer — the method locks
`self.error` — so a subsequent read of the input stream yields nothing
(not the seeded bytes), the error snapshot changes from empty to the seeded
bytes, and only the output buffer is left unchanged. -/
theorem set_input_clobbers_error_buffer :
    ((Test.mkDefault.set_input exampleBytes).readInputToEnd).1 = [] ∧
    (Test.mkDefault.set_input exampleBytes).to_error_vec = exampleBytes ∧
    Test.mkDefault.to_error_vec = [] ∧
    (Test.mkDefault.set_input exampleBytes).to_output_vec =
      Test.mkDefault.to_output_vec ∧
    exampleBytes ≠ [] := by
  decide

/-- C8: operations unsupported by the active backing kind (read on the
error-console and output-console kinds, write or seek on the input-console
kind) are fatal contract violations — the model returns the distinguished
panic outcome `none`, never a stream value (so no silent no-op) and never a
recoverable error value (the result type has no error channel) — while
memory-backed streams support read, write, and seek. -/
theorem stream_capability_table :
    (∀ w, (IoStream.errorConsole w).read = none) ∧
    (∀ w, (IoStream.outputConsole w).read = none) ∧
    (∀ p bs, (IoStream.inputConsole p).write bs = none) ∧
    (∀ p k, (IoStream.inputConsole p).seek k = none) ∧
    (∀ d pos, (IoStream.memory d pos).read.isSome = true ∧
      (∀ bs, ((IoStream.memory d pos).write bs).isSome = true) ∧
      (∀ k, ((IoStream.memory d pos).seek k).isSome = true)) :=
  ⟨fun _ => rfl, fun _ => rfl, fun _ _ => rfl, fun _ _ => rfl,
   fun _ _ => ⟨rfl, fun _ => rfl, fun _ => rfl⟩⟩
